import Mathlib

/-!
Shallow embedding of the MCP connectivity-probe / capability-discovery core of
`my-mcp-manager` (backend: `src/backend/src/server.ts` `checkMcpServer` /
`checkMcpServers`, and `src/backend/src/services/McpCapabilitiesService.ts`
`getMcpCapabilities` / `getMcpCapabilitiesBatch`).

Modelling conventions:
* JS numbers that carry millisecond budgets are modelled as `Nat` (they are
  non-negative integers in every reachable state); the public
  `splitTimeout(totalMs, parts)` is modelled over `Int` because the claims
  quantify over all integers.  `Math.floor(a / b)` on non-negative operands is
  `Int.ediv` / `Nat` division.  `Math.floor(t * 0.6)` is modelled as
  `3 * t / 5`: for every budget in the engine's supported range the binary
  floating-point computation agrees with the exact rational floor.
* The MCP SDK client (`connect`, `ping`, `listTools`, `listResources`,
  `listPrompts`), URL parsing (`new URL`) and stdio transport construction are
  external effects; they are modelled by an explicit environment record whose
  fields return `Except String α` (`.error m` models a rejected promise /
  thrown `Error` with message `m`).  `withTimeout` is absorbed into the
  environment: a phase that times out is one more way the environment can
  return `.error` (the engine treats both identically).
* Wall-clock latency (`Date.now() - start`) is modelled by an abstract
  `elapsed` field of the environment; no claim constrains its value except the
  literal `latencyMs: 0` of the batch scheduler's synthetic not-found entry.
* JS string truthiness (`if (config.url)`) is: a string is truthy iff it is
  non-empty.
-/

/-- ASCII lowercasing; agrees with JS `String.prototype.toLowerCase` on the
ASCII strings (scheme names, paths, transport hints) the engine compares. -/
def asciiLower (s : String) : String :=
  ⟨s.data.map Char.toLower⟩

/-- `pre` is a prefix of `l` (character-list form of JS `startsWith`). -/
def listStartsWith : List Char → List Char → Bool
  | [], _ => true
  | _ :: _, [] => false
  | a :: as, b :: bs => a == b && listStartsWith as bs

/-- `sub` occurs inside `l` (character-list form of JS `includes`). -/
def listContains (sub : List Char) : List Char → Bool
  | [] => listStartsWith sub []
  | b :: bs => listStartsWith sub (b :: bs) || listContains sub bs

/-- JS `s.includes(sub)`. -/
def strContains (s sub : String) : Bool :=
  listContains sub.data s.data

/-- JS `s.endsWith(suffix)`. -/
def strEndsWith (s suffix : String) : Bool :=
  listStartsWith suffix.data.reverse s.data.reverse

/-- JS `s.startsWith(pre)`. -/
def strStartsWith (s pre : String) : Bool :=
  listStartsWith pre.data s.data

/-- `isMethodMissingError` (identical in `server.ts` and
`McpCapabilitiesService.ts`): case-insensitive substring match against the
"method not found" error class. -/
def isMethodMissingError (message : String) : Bool :=
  let m := asciiLower message
  strContains m "method not found" ||
  strContains m "unknown method" ||
  strContains m "not implemented" ||
  strContains m "-32601"

/-- `tailText(text, maxChars)`: the last `maxChars` characters of `text`
(JS `text.slice(text.length - maxChars)`). -/
def tailText (text : String) (maxChars : Nat) : String :=
  if text.length ≤ maxChars then text else text.drop (text.length - maxChars)

/-- `splitTimeout(totalMs, parts)` (identical local function in `server.ts`
`checkMcpServer` and module level of `McpCapabilitiesService.ts`):

```js
const clamped = Math.max(500, Math.floor(totalMs));
const p = Math.max(1, Math.floor(parts));
const base = Math.max(250, Math.floor(clamped / p));
const out = Array.from(\x7b length: p \x7d, () => base);
out[0] += clamped - base * p;
return out.map(x => Math.max(250, x));
```

`Math.floor(clamped / p)` on the non-negative `clamped` and positive `p` is
floor division, i.e. `Int.ediv`. -/
def splitTimeout (totalMs parts : Int) : List Int :=
  let clamped : Int := max 500 totalMs
  let p : Int := max 1 parts
  let base : Int := max 250 (clamped / p)
  let out : List Int := List.replicate p.toNat base
  let out : List Int :=
    match out with
    | [] => []
    | h :: rest => (h + (clamped - base * p)) :: rest
  out.map (fun x => max 250 x)

/-- The engines call `splitTimeout` on non-negative millisecond budgets; this
is the same function restricted to `Nat` (every element of the result is
non-negative there, see `splitTimeout` clamping to 250). -/
def splitTimeoutN (totalMs parts : Nat) : List Nat :=
  (splitTimeout totalMs parts).map Int.toNat

/-- Outer attempt budgets for exactly two URL transport candidates
(`server.ts` line 242 / `McpCapabilitiesService.ts` line 274):
`[Math.max(500, Math.floor(t*0.6)), Math.max(500, t - Math.floor(t*0.6))]`. -/
def attemptBudgets (t : Nat) : List Nat :=
  [max 500 (3 * t / 5), max 500 (t - 3 * t / 5)]

-- sanity checks on concrete values
example : (-7 : Int) / 2 = Int.ediv (-7) 2 := by rfl
example : splitTimeout 1000 2 = [500, 500] := by decide
example : splitTimeout 3000 3 = [1000, 1000, 1000] := by decide
example : splitTimeout 1001 2 = [501, 500] := by decide
example : splitTimeout 500 3 = [250, 250, 250] := by decide
example : attemptBudgets 1000 = [600, 500] := by decide
example : isMethodMissingError "JSON-RPC -32601" = true := by decide
example : isMethodMissingError "boom" = false := by decide
example : tailText "abcdef" 4 = "cdef" := by rfl

/-- `MCPServerConfig` (`ConfigService.ts`); only the fields the engines read.
`env`, `args`, `cwd`, `headers` are carried for completeness but never branch
the modelled control flow (they only parameterise the external transport). -/
structure MCPServerConfig where
  command : Option String := none
  args : List String := []
  env : List (String × String) := []
  cwd : Option String := none
  type : Option String := none
  url : Option String := none
  headers : List (String × String) := []
  disabled : Bool := false
deriving DecidableEq, Repr

/-- JS string truthiness for optional string config fields
(`if (config.url)` / `if (!config.command)`): present and non-empty. -/
def optTruthy : Option String → Bool
  | none => false
  | some s => !(s == "")

/-- Result of `new URL(config.url)` as far as the engines read it:
`url.protocol` (with trailing colon, e.g. `"https:"`) and `url.pathname`. -/
structure Url where
  scheme : String
  pathname : String
deriving DecidableEq, Repr

/-- `cfgType` (`server.ts` line 194 / `McpCapabilitiesService.ts` line 259):
`typeof config.type === 'string' ? String(config.type).toLowerCase() : ''`. -/
def cfgTypeLower (cfg : MCPServerConfig) : String :=
  match cfg.type with
  | some s => asciiLower s
  | none => ""

/-- Candidate ordering for an HTTP(S) URL (`server.ts` lines 194-203 /
`McpCapabilitiesService.ts` lines 259-268); `pathLower` is the already
lowercased `url.pathname`.  Returns the ordered candidate names. -/
def resolveHttpOrder (cfgType pathLower : String) : List String :=
  let preferLegacySse :=
    cfgType == "sse" || strEndsWith pathLower "/sse" || strContains pathLower "sse"
  let preferStreamable := cfgType == "streamable-http" || cfgType == "http"
  if preferLegacySse && !preferStreamable then
    ["legacy-sse", "streamable-http"]
  else
    ["streamable-http", "legacy-sse"]

/-- Transport candidate resolution for a URL config (`server.ts`
lines 191-204): `ws:`/`wss:` gives the single websocket candidate, every other
scheme gets the two HTTP candidates in preference order. -/
def resolveCandidates (cfg : MCPServerConfig) (url : Url) : List String :=
  if url.scheme == "ws:" || url.scheme == "wss:" then
    ["websocket"]
  else
    resolveHttpOrder (cfgTypeLower cfg) (asciiLower url.pathname)

/-- `McpCheckResult` (`server.ts`). -/
inductive McpCheckResult where
  | ok (latencyMs : Nat)
  | fail (latencyMs : Nat) (error : String)
deriving DecidableEq, Repr

/-- Whether a probe outcome is the `Ok` variant. -/
def McpCheckResult.isOk : McpCheckResult → Bool
  | .ok _ => true
  | .fail _ _ => false

/-- Environment of external effects for one `checkMcpServer` call.  The
`String` argument of the per-candidate operations is the candidate name, the
`Nat` argument everywhere is the phase budget granted through `withTimeout`
(so a fake transport "always" failing means failing for every budget).
`stderrTrimmed` is the trimmed utf-8 decoding of the stderr chunks the ring
buffer would hold at failure time; it is only observable once the stdio
transport has been built (the listener is attached after `buildTransport`
returns).  `elapsed` abstracts `Date.now() - start`. -/
structure ProbeEnv where
  parseUrl : String → Except String Url
  connectC : String → Nat → Except String Unit
  pingC : String → Nat → Except String Unit
  buildStdio : Except String Unit
  connectS : Nat → Except String Unit
  pingS : Nat → Except String Unit
  listToolsS : Nat → Except String Unit
  stderrTrimmed : String
  elapsed : Nat

/-- `tryOnce` (`server.ts` lines 232-238): build the candidate transport,
connect within the first half of the attempt budget, ping within the second.
Note: no listTools fallback here. -/
def tryOnce (env : ProbeEnv) (name : String) (attemptTimeoutMs : Nat) :
    Except String Unit := do
  let ts := splitTimeoutN attemptTimeoutMs 2
  let _ ← env.connectC name (ts.getD 0 0)
  env.pingC name (ts.getD 1 0)

/-- `errors.join(' | ') || 'Unavailable'` (`server.ts` line 259). -/
def joinSep (sep : String) : List String → String
  | [] => ""
  | [x] => x
  | x :: rest => x ++ sep ++ joinSep sep rest

/-- Joined candidate error string, `"Unavailable"` when it is empty. -/
def joinPipe (errors : List String) : String :=
  let s := joinSep " | " errors
  if s == "" then "Unavailable" else s

/-- The candidate loop of the URL branch (`server.ts` lines 244-259): try each
(candidate, budget) pair in order, return `Ok` on the first success, otherwise
record `"<name>: <message>"` and continue; after the loop return the
aggregated `Fail`. -/
def probeUrlLoop (env : ProbeEnv) :
    List (String × Nat) → List String → McpCheckResult
  | [], errors => .fail env.elapsed (joinPipe errors)
  | (name, ms) :: rest, errors =>
    match tryOnce env name ms with
    | .ok _ => .ok env.elapsed
    | .error e => probeUrlLoop env rest (errors ++ [name ++ ": " ++ e])

/-- Everything inside the big `try` of `checkMcpServer` (`server.ts`
lines 182-293).  `.error (msg, attached)` models a thrown error with message
`msg`; `attached` records whether the stdio stderr listener was attached
before the throw (the URL branch never attaches it, and in the stdio branch it
is attached right after `buildTransport` succeeds).  The `attemptTimeouts[i]
?? ...` fallback of the source is dead code (the budget list always has the
same length as the candidate list), so the zip is exact. -/
def checkBody (env : ProbeEnv) (cfg : MCPServerConfig) (timeoutMs : Nat) :
    Except (String × Bool) McpCheckResult :=
  if optTruthy cfg.url then
    match env.parseUrl (cfg.url.getD "") with
    | .error e => .error (e, false)
    | .ok url =>
      let attempts := resolveCandidates cfg url
      let timeouts :=
        if attempts.length == 1 then [timeoutMs] else attemptBudgets timeoutMs
      .ok (probeUrlLoop env (attempts.zip timeouts) [])
  else if !(optTruthy cfg.command) then
    -- `buildTransport` throws `'Missing command or url'` before any transport
    -- exists, so no stderr listener is attached.
    .error ("Missing command or url", false)
  else
    match env.buildStdio with
    | .error e => .error (e, false)
    | .ok _ =>
      -- stderr listener attached from here on
      match env.connectS timeoutMs with
      | .error e => .error (e, true)
      | .ok _ =>
        match env.pingS timeoutMs with
        | .ok _ => .ok (.ok env.elapsed)
        | .error m =>
          if isMethodMissingError m then
            match env.listToolsS timeoutMs with
            | .ok _ => .ok (.ok env.elapsed)
            | .error e2 => .error (e2, true)
          else .error (m, true)

/-- `checkMcpServer` (`server.ts` lines 172-312): the body's thrown errors are
caught and converted to a `Fail` outcome, with the stderr tail appended when
the stdio stderr buffer is non-empty. -/
def checkMcpServer (env : ProbeEnv) (cfg : MCPServerConfig) (timeoutMs : Nat) :
    McpCheckResult :=
  match checkBody env cfg timeoutMs with
  | .ok r => r
  | .error (msg, attached) =>
    let st := if attached then env.stderrTrimmed else ""
    let err := if st == "" then msg else msg ++ " | stderr: " ++ tailText st 2000
    .fail env.elapsed err

/-- A raw tool descriptor as returned by `listTools` before normalization
(`McpCapabilitiesService.ts` lines 213-217); `inputSchema` payloads are
opaque to the engine and modelled as strings. -/
structure RawTool where
  name : Option String := none
  description : Option String := none
  inputSchema : Option String := none
deriving DecidableEq, Repr

/-- A normalized tool descriptor `{name, description?, inputSchema?}`. -/
structure McpTool where
  name : String
  description : Option String := none
  inputSchema : Option String := none
deriving DecidableEq, Repr

/-- `McpCapabilities` (`McpCapabilitiesService.ts` lines 11-15); resource and
prompt entries are passed through opaquely and modelled as strings. -/
structure McpCapabilities where
  tools : List McpTool
  resources : List String
  prompts : List String
deriving DecidableEq, Repr

/-- The `supported` flags of an `Ok` capability outcome. -/
structure SupportedFlags where
  tools : Bool
  resources : Bool
  prompts : Bool
deriving DecidableEq, Repr

/-- `McpCapabilitiesResult` (`McpCapabilitiesService.ts` lines 17-24). -/
inductive McpCapabilitiesResult where
  | ok (latencyMs : Nat) (supported : SupportedFlags)
      (capabilities : McpCapabilities)
  | fail (latencyMs : Nat) (error : String)
deriving DecidableEq, Repr

/-- Tool normalization (`McpCapabilitiesService.ts` lines 213-217):
`name: String(t?.name ?? '')`, keep `description`/`inputSchema`, then drop
entries with an empty (falsy) name. -/
def normalizeTools (raw : List RawTool) : List McpTool :=
  (raw.map (fun t =>
    { name := t.name.getD ""
      description := t.description
      inputSchema := t.inputSchema })).filter (fun t => !(t.name == ""))

/-- The three list calls available on a connected client, each taking its
granted phase budget. -/
structure DiscoverCalls where
  listTools : Nat → Except String (List RawTool)
  listResources : Nat → Except String (List String)
  listPrompts : Nat → Except String (List String)

/-- The common shape of the three `try { ... = await list call } catch (e)
{ if (isMethodMissingError(msg)) supported.X = false; else throw e }` blocks
of `discover` (`McpCapabilitiesService.ts` lines 209-244): on success the
capability list is `onOk` of the response (tool normalization for tools,
identity for resources/prompts) with the supported flag left `true`; a
method-missing error flips the flag and leaves the list at its initial empty
value; any other error rethrows. -/
def capPhase {α β : Type} (r : Except String α) (onOk : α → β)
    (emptyVal : β) : Except String (Bool × β) :=
  match r with
  | .ok v => .ok (true, onOk v)
  | .error m =>
    if isMethodMissingError m then .ok (false, emptyVal) else .error m

/-- `discover(totalMs)` (`McpCapabilitiesService.ts` lines 203-247): split the
budget three ways; each call independently either fills its capability list,
or — on a method-missing-class error — marks that capability unsupported and
continues, or — on any other error — rethrows, failing the whole attempt. -/
def discover (calls : DiscoverCalls) (totalMs : Nat) :
    Except String (SupportedFlags × McpCapabilities) := do
  let ts := splitTimeoutN totalMs 3
  let toolsStep ← capPhase (calls.listTools (ts.getD 0 0)) normalizeTools []
  let resourcesStep ← capPhase (calls.listResources (ts.getD 1 0)) id []
  let promptsStep ← capPhase (calls.listPrompts (ts.getD 2 0)) id []
  Except.ok (⟨toolsStep.1, resourcesStep.1, promptsStep.1⟩,
    ⟨toolsStep.2, resourcesStep.2, promptsStep.2⟩)

/-- Environment of external effects for one `getMcpCapabilities` call; same
conventions as `ProbeEnv`, with the three list calls available per URL
candidate (`callsC name`) and for the stdio transport (`callsS`). -/
structure CapEnv where
  parseUrl : String → Except String Url
  connectC : String → Nat → Except String Unit
  callsC : String → DiscoverCalls
  buildStdio : Except String Unit
  connectS : Nat → Except String Unit
  callsS : DiscoverCalls
  stderrTrimmed : String
  elapsed : Nat

/-- One URL candidate attempt of `getMcpCapabilities`
(`McpCapabilitiesService.ts` lines 280-285): connect within the first half of
the attempt budget, then run `discover` within the second. -/
def capTryOnce (env : CapEnv) (name : String) (attemptTimeoutMs : Nat) :
    Except String (SupportedFlags × McpCapabilities) := do
  let ts := splitTimeoutN attemptTimeoutMs 2
  let _ ← env.connectC name (ts.getD 0 0)
  discover (env.callsC name) (ts.getD 1 0)

/-- The candidate loop of the URL branch of `getMcpCapabilities`
(`McpCapabilitiesService.ts` lines 276-297). -/
def capUrlLoop (env : CapEnv) :
    List (String × Nat) → List String → McpCapabilitiesResult
  | [], errors => .fail env.elapsed (joinPipe errors)
  | (name, ms) :: rest, errors =>
    match capTryOnce env name ms with
    | .ok (sup, caps) => .ok env.elapsed sup caps
    | .error e => capUrlLoop env rest (errors ++ [name ++ ": " ++ e])

/-- Everything inside the `try` of `getMcpCapabilities`
(`McpCapabilitiesService.ts` lines 249-309); same thrown-error convention as
`checkBody`. -/
def capBody (env : CapEnv) (cfg : MCPServerConfig) (timeoutMs : Nat) :
    Except (String × Bool) McpCapabilitiesResult :=
  if optTruthy cfg.url then
    match env.parseUrl (cfg.url.getD "") with
    | .error e => .error (e, false)
    | .ok url =>
      let attempts := resolveCandidates cfg url
      let timeouts :=
        if attempts.length == 1 then [timeoutMs] else attemptBudgets timeoutMs
      .ok (capUrlLoop env (attempts.zip timeouts) [])
  else if !(optTruthy cfg.command) then
    .error ("Missing command or url", false)
  else
    match env.buildStdio with
    | .error e => .error (e, false)
    | .ok _ =>
      -- stderr listener attached from here on
      let ts := splitTimeoutN timeoutMs 2
      match env.connectS (ts.getD 0 0) with
      | .error e => .error (e, true)
      | .ok _ =>
        match discover env.callsS (ts.getD 1 0) with
        | .ok (sup, caps) => .ok (.ok env.elapsed sup caps)
        | .error e => .error (e, true)

/-- First-match association-list lookup, modelling JS object property read
(`servers[id]`). -/
def alistGet {α : Type} : List (String × α) → String → Option α
  | [], _ => none
  | (k, v) :: rest, id => if k == id then some v else alistGet rest id

/-- Number of entries under key `k`, modelling "entries in the result map". -/
def alistCountKey {α : Type} : List (String × α) → String → Nat
  | [], _ => 0
  | (k, _) :: rest, id => (if k == id then 1 else 0) + alistCountKey rest id

/-- JS object property write `results[id] = v`: overwrite the existing entry
in place, or append a new one. -/
def alistPut {α : Type} : List (String × α) → String → α → List (String × α)
  | [], id, v => [(id, v)]
  | (k, w) :: rest, id, v =>
    if k == id then (k, v) :: rest else (k, w) :: alistPut rest id v

/-!
Batch scheduler (`checkMcpServers`, `server.ts` lines 314-338, and the
line-identical `getMcpCapabilitiesBatch`).  Each of the `max(1, concurrency)`
workers loops: `if (queue.length > 0) { const id = queue.shift(); if (!id)
return; ... }`.  The length check and `shift` are in one synchronous block
(no `await` between them), so in every schedule the shared queue is consumed
front-to-back one element per pop, and each pop of a falsy id (`""`) retires
exactly one worker without writing a result.  The final result map, the
multiset of engine invocations, and whether some worker's promise rejects are
therefore schedule-independent, and equal to this sequential model in which
worker 1 runs to completion (or death), then worker 2 on the remaining queue,
and so on.  A worker body has no try/catch around the engine call: an engine
rejection rejects that worker's promise and hence the `Promise.all`, modelled
by the `Except` error propagating out of `runBatchE`.

The state threaded through the workers is `(queue, results, calls)` where
`calls` is the ordered list of ids for which the per-target engine was
actually invoked.
-/

/-- One worker of the batch scheduler, run to termination on the shared
state. -/
def batchWorker (engine : MCPServerConfig → Nat → Except String McpCheckResult)
    (servers : List (String × MCPServerConfig)) (timeoutMs : Nat) :
    List String → List (String × McpCheckResult) → List String →
    Except String (List String × List (String × McpCheckResult) × List String)
  | [], results, calls => .ok ([], results, calls)
  | id :: rest, results, calls =>
    if id == "" then
      -- `if (!id) return;` — the popped falsy id kills this worker
      .ok (rest, results, calls)
    else
      match alistGet servers id with
      | none =>
        batchWorker engine servers timeoutMs rest
          (alistPut results id (.fail 0 "MCP not found")) calls
      | some cfg =>
        match engine cfg timeoutMs with
        | .ok r =>
          batchWorker engine servers timeoutMs rest
            (alistPut results id r) (calls ++ [id])
        | .error e => .error e

/-- Run `n` further workers on the shared state. -/
def runWorkers (engine : MCPServerConfig → Nat → Except String McpCheckResult)
    (servers : List (String × MCPServerConfig)) (timeoutMs : Nat) :
    Nat → List String × List (String × McpCheckResult) × List String →
    Except String (List String × List (String × McpCheckResult) × List String)
  | 0, st => .ok st
  | n + 1, (q, results, calls) => do
    let st ← batchWorker engine servers timeoutMs q results calls
    runWorkers engine servers timeoutMs n st

/-- `checkMcpServers(servers, ids, { timeoutMs, concurrency })` /
`getMcpCapabilitiesBatch`: spawn `max(1, concurrency)` workers over a shared
FIFO copy of `ids` and an initially empty result map; returns the result map
and the engine-invocation log, or the propagated rejection of some worker. -/
def runBatchE (engine : MCPServerConfig → Nat → Except String McpCheckResult)
    (servers : List (String × MCPServerConfig)) (ids : List String)
    (timeoutMs concurrency : Nat) :
    Except String (List (String × McpCheckResult) × List String) := do
  let (_, results, calls) ←
    runWorkers engine servers timeoutMs (max 1 concurrency) (ids, [], [])
  pure (results, calls)

/-- `getMcpCapabilities` (`McpCapabilitiesService.ts` lines 163-319). -/
def getMcpCapabilities (env : CapEnv) (cfg : MCPServerConfig)
    (timeoutMs : Nat) : McpCapabilitiesResult :=
  match capBody env cfg timeoutMs with
  | .ok r => r
  | .error (msg, attached) =>
    let st := if attached then env.stderrTrimmed else ""
    let err := if st == "" then msg else msg ++ " | stderr: " ++ tailText st 2000
    .fail env.elapsed err



/-! ## Lemmas about the timeout budgeter -/

/-- Closed form of `splitTimeout` for a positive number of parts: the clamped
head followed by `n - 1` copies of the clamped base. -/
theorem splitTimeout_eq (t n : Int) (hn : 1 ≤ n) :
    splitTimeout t n =
      max 250 (max 250 ((max 500 t) / n) + ((max 500 t) - max 250 ((max 500 t) / n) * n))
        :: List.replicate (n.toNat - 1) (max 250 ((max 500 t) / n)) := by
  have hp : max 1 n = n := max_eq_right hn
  have hsucc : n.toNat = (n.toNat - 1) + 1 := by omega
  rw [splitTimeout]
  simp only [hp]
  rw [hsucc, List.replicate_succ]
  simp only [List.map_cons, List.map_replicate]
  congr 1
  rw [← max_assoc, max_self]
  rw [Nat.add_sub_cancel]

/-- **C1, counterexample.**  The claim demands that the sum of
`split(totalMs, n)` equal `max(500, floor(totalMs))` for every `n ≥ 1`, but at
`totalMs = 500`, `n = 3` the per-part 250ms floor is applied after the
remainder correction, so every part is 250 and the sum is 750, not 500. -/
theorem splitTimeout_sum_counterexample :
    splitTimeout 500 3 = [250, 250, 250] ∧ (splitTimeout 500 3).sum ≠ max 500 500 := by
  decide

/-- **C1, amended.**  For every integer `totalMs` and every integer `n ≥ 1`,
`split(totalMs, n)` has length `n` and every element is `≥ 250`; the sum
equals `max(500, floor(totalMs))` exactly (first element absorbing the
remainder) whenever `250 * n ≤ max(500, floor(totalMs))`, and otherwise every
element is clamped to 250 and the sum is `250 * n`. -/
theorem splitTimeout_length_bound_sum (t n : Int) (hn : 1 ≤ n) :
    (splitTimeout t n).length = n.toNat ∧
    (∀ x ∈ splitTimeout t n, (250 : Int) ≤ x) ∧
    (250 * n ≤ max 500 t → (splitTimeout t n).sum = max 500 t) ∧
    (max 500 t < 250 * n → (splitTimeout t n).sum = 250 * n) := by
  have hn0 : 0 < n := hn
  have hnz : n ≠ 0 := by omega
  rw [splitTimeout_eq t n hn]
  set c := max 500 t with hc
  refine ⟨?_, ?_, ?_, ?_⟩
  · simp only [List.length_cons, List.length_replicate]
    omega
  · intro x hx
    rcases List.mem_cons.mp hx with h | h
    · rw [h]; exact le_max_left _ _
    · rw [List.eq_of_mem_replicate h]; exact le_max_left _ _
  · intro h
    have hdiv : 250 ≤ c / n := (Int.le_ediv_iff_mul_le hn0).mpr h
    rw [max_eq_right hdiv]
    have hmod : 0 ≤ c % n := Int.emod_nonneg c hnz
    have hrw : c - c / n * n = c % n := by rw [Int.emod_def]; ring
    have hhead : (250 : Int) ≤ c / n + (c - c / n * n) := by
      rw [hrw]; linarith
    rw [max_eq_right hhead, List.sum_cons, List.sum_replicate, nsmul_eq_mul]
    have hm : ((n.toNat - 1 : Nat) : Int) = n - 1 := by omega
    rw [hm]; ring
  · intro h
    have hdiv : c / n < 250 := (Int.ediv_lt_iff_lt_mul hn0).mpr (by linarith)
    rw [max_eq_left hdiv.le]
    have hhead : (250 : Int) + (c - 250 * n) ≤ 250 := by linarith
    rw [max_eq_left hhead, List.sum_cons, List.sum_replicate, nsmul_eq_mul]
    have hm : ((n.toNat - 1 : Nat) : Int) = n - 1 := by omega
    rw [hm]; ring

/-- Witness for `splitTimeout_length_bound_sum` at `totalMs = 3100`, `n = 3`. -/
theorem splitTimeout_length_bound_sum_witness :
    (splitTimeout 3100 3).length = (3 : Int).toNat ∧
    (∀ x ∈ splitTimeout 3100 3, (250 : Int) ≤ x) ∧
    ((250 : Int) * 3 ≤ max 500 3100 → (splitTimeout 3100 3).sum = max 500 3100) ∧
    ((max 500 3100 : Int) < 250 * 3 → (splitTimeout 3100 3).sum = 250 * 3) :=
  splitTimeout_length_bound_sum 3100 3 (by decide)

/-- **C6, counterexample.**  The claim says the two outer attempt budgets are
`floor(0.6*T)` and `T - floor(0.6*T)` and sum to `T`; but both are clamped
below at 500ms, so at `T = 1000` the code grants `[600, 500]` (not
`[600, 400]`), which sums to 1100, not 1000. -/
theorem attemptBudgets_sum_counterexample :
    attemptBudgets 1000 = [600, 500] ∧ (attemptBudgets 1000).sum ≠ 1000 := by
  decide

/-- **C6, amended.**  For two URL candidates the outer per-target budget `T`
is split as `max(500, floor(0.6*T))` for the first attempt and
`max(500, T - floor(0.6*T))` for the second; the two budgets sum to `T`
exactly when `floor(0.6*T) + 500 ≤ T` (both clamps inactive), and otherwise
their sum strictly exceeds `T`. -/
theorem attemptBudgets_sum (t : Nat) :
    (500 + 3 * t / 5 ≤ t → (attemptBudgets t).sum = t) ∧
    (t < 500 + 3 * t / 5 → t < (attemptBudgets t).sum) := by
  simp only [attemptBudgets, List.sum_cons, List.sum_nil]
  omega

/-- Witness for `attemptBudgets_sum` at `T = 5000` (exact split) and
`T = 1000` (clamped split exceeding `T`). -/
theorem attemptBudgets_sum_witness :
    (attemptBudgets 5000).sum = 5000 ∧ 1000 < (attemptBudgets 1000).sum :=
  ⟨(attemptBudgets_sum 5000).1 (by decide), (attemptBudgets_sum 1000).2 (by decide)⟩

/-! ## Lemmas about the substring predicates -/

theorem listStartsWith_refl (l : List Char) : listStartsWith l l = true := by
  induction l with
  | nil => rfl
  | cons a as ih => simp [listStartsWith, ih]

theorem listStartsWith_exists :
    ∀ (pre l : List Char), listStartsWith pre l = true → ∃ t, l = pre ++ t
  | [], l, _ => ⟨l, rfl⟩
  | a :: as, [], h => by simp [listStartsWith] at h
  | a :: as, b :: bs, h => by
    simp only [listStartsWith, Bool.and_eq_true, beq_iff_eq] at h
    obtain ⟨t, ht⟩ := listStartsWith_exists as bs h.2
    exact ⟨t, by simp [h.1, ht]⟩

theorem listContains_of_startsWith (sub l : List Char)
    (h : listStartsWith sub l = true) : listContains sub l = true := by
  cases l with
  | nil => exact h
  | cons b bs => simp [listContains, h]

theorem listContains_cons (sub : List Char) (b : Char) (l : List Char)
    (h : listContains sub l = true) : listContains sub (b :: l) = true := by
  simp [listContains, h]

theorem listContains_append_left (a : List Char) (sub l : List Char)
    (h : listContains sub l = true) : listContains sub (a ++ l) = true := by
  induction a with
  | nil => exact h
  | cons x xs ih => exact listContains_cons sub x (xs ++ l) ih

/-- JS: `s.endsWith(suf)` implies `s.includes(suf)`. -/
theorem strContains_of_strEndsWith (s suf : String)
    (h : strEndsWith s suf = true) : strContains s suf = true := by
  unfold strEndsWith at h
  obtain ⟨t, ht⟩ := listStartsWith_exists _ _ h
  have hdata : s.data = t.reverse ++ suf.data := by
    have := congrArg List.reverse ht
    simpa using this
  unfold strContains
  rw [hdata]
  exact listContains_append_left _ _ _
    (listContains_of_startsWith _ _ (listStartsWith_refl _))

/-! ## C4: transport candidate ordering -/

/-- Concrete config for the C4 counterexample: explicit hint `type: "http"`
on a URL whose path contains `sse`. -/
def c4Cfg : MCPServerConfig :=
  { type := some "http", url := some "https://example.com/sse" }

/-- Parse of `https://example.com/sse`. -/
def c4Url : Url := { scheme := "https:", pathname := "/sse" }

/-- **C4, counterexample.**  The claim says legacy-sse is ordered first
*exactly when* the hint is `"sse"` or the URL path contains `"sse"`.  With
hint `type: "http"` and path `/sse` the path-based condition holds, yet the
code's `preferStreamable` override puts streamable-http first. -/
theorem resolveCandidates_order_counterexample :
    resolveCandidates c4Cfg c4Url = ["streamable-http", "legacy-sse"] ∧
    strContains (asciiLower c4Url.pathname) "sse" = true := by
  decide

/-- JS: a path ending with `/sse` contains `sse`. -/
theorem strContains_sse_of_endsWith (pl : String)
    (h : strEndsWith pl "/sse" = true) : strContains pl "sse" = true := by
  unfold strEndsWith at h
  obtain ⟨t, ht⟩ := listStartsWith_exists _ _ h
  have hdata : pl.data = t.reverse ++ "/sse".data := by
    have := congrArg List.reverse ht
    simpa using this
  have hsplit : pl.data = (t.reverse ++ ['/']) ++ "sse".data := by
    rw [hdata]
    simp
  unfold strContains
  rw [hsplit]
  exact listContains_append_left _ _ _
    (listContains_of_startsWith _ _ (listStartsWith_refl _))

/-- The boolean legacy-sse-first condition of the source, as a proposition. -/
theorem legacyCond_iff (ct pl : String) :
    ((ct == "sse" || strEndsWith pl "/sse" || strContains pl "sse") &&
        !(ct == "streamable-http" || ct == "http")) = true ↔
      ((ct = "sse" ∨ strContains pl "sse" = true) ∧
        ct ≠ "streamable-http" ∧ ct ≠ "http") := by
  simp only [Bool.and_eq_true, Bool.or_eq_true, Bool.not_eq_true',
    Bool.or_eq_false_iff, beq_iff_eq, beq_eq_false_iff_ne]
  constructor
  · rintro ⟨h1, h2, h3⟩
    refine ⟨?_, h2, h3⟩
    rcases h1 with (h | h) | h
    · exact Or.inl h
    · exact Or.inr (strContains_sse_of_endsWith _ h)
    · exact Or.inr h
  · rintro ⟨h1, h2, h3⟩
    refine ⟨?_, h2, h3⟩
    rcases h1 with h | h
    · exact Or.inl (Or.inl h)
    · exact Or.inr h

/-- Ordering characterisation of `resolveHttpOrder`. -/
theorem resolveHttpOrder_legacy_first (ct pl : String) :
    resolveHttpOrder ct pl = ["legacy-sse", "streamable-http"] ↔
      ((ct = "sse" ∨ strContains pl "sse" = true) ∧
        ct ≠ "streamable-http" ∧ ct ≠ "http") := by
  unfold resolveHttpOrder
  by_cases hC :
      ((ct == "sse" || strEndsWith pl "/sse" || strContains pl "sse") &&
        !(ct == "streamable-http" || ct == "http")) = true
  · rw [if_pos hC]
    exact ⟨fun _ => (legacyCond_iff ct pl).mp hC, fun _ => rfl⟩
  · rw [if_neg hC]
    constructor
    · intro h
      exact absurd h (by decide)
    · intro hR
      exact absurd ((legacyCond_iff ct pl).mpr hR) hC

/-- **C4, amended.**  For an `http:`/`https:` URL the resolver produces
exactly the two candidates streamable-http and legacy-sse, and legacy-sse is
ordered first exactly when (the lowercased hint equals `"sse"` OR the
lowercased URL path contains `"sse"`) AND the lowercased hint is neither
`"streamable-http"` nor `"http"` (the explicit streamable hints override the
path shape); streamable-http is first otherwise. -/
theorem resolveCandidates_http (cfg : MCPServerConfig) (url : Url)
    (h : url.scheme = "http:" ∨ url.scheme = "https:") :
    (resolveCandidates cfg url = ["legacy-sse", "streamable-http"] ∨
      resolveCandidates cfg url = ["streamable-http", "legacy-sse"]) ∧
    (resolveCandidates cfg url = ["legacy-sse", "streamable-http"] ↔
      ((cfgTypeLower cfg = "sse" ∨
          strContains (asciiLower url.pathname) "sse" = true) ∧
        cfgTypeLower cfg ≠ "streamable-http" ∧ cfgTypeLower cfg ≠ "http")) := by
  have hws : (url.scheme == "ws:" || url.scheme == "wss:") = false := by
    rcases h with h | h <;> rw [h] <;> decide
  have hres : resolveCandidates cfg url =
      resolveHttpOrder (cfgTypeLower cfg) (asciiLower url.pathname) := by
    unfold resolveCandidates
    rw [hws]
    rfl
  rw [hres]
  refine ⟨?_, resolveHttpOrder_legacy_first _ _⟩
  unfold resolveHttpOrder
  by_cases hC :
      ((cfgTypeLower cfg == "sse" ||
          strEndsWith (asciiLower url.pathname) "/sse" ||
          strContains (asciiLower url.pathname) "sse") &&
        !(cfgTypeLower cfg == "streamable-http" || cfgTypeLower cfg == "http")) = true
  · rw [if_pos hC]; exact Or.inl rfl
  · rw [if_neg hC]; exact Or.inr rfl

/-- Witness for `resolveCandidates_http`: an SSE-shaped URL with no hint puts
legacy-sse first. -/
theorem resolveCandidates_http_witness :
    (resolveCandidates { url := some "https://h/x/sse" }
        { scheme := "https:", pathname := "/x/sse" } =
          ["legacy-sse", "streamable-http"] ∨
      resolveCandidates { url := some "https://h/x/sse" }
        { scheme := "https:", pathname := "/x/sse" } =
          ["streamable-http", "legacy-sse"]) ∧
    (resolveCandidates { url := some "https://h/x/sse" }
        { scheme := "https:", pathname := "/x/sse" } =
          ["legacy-sse", "streamable-http"] ↔
      ((cfgTypeLower { url := some "https://h/x/sse" } = "sse" ∨
          strContains (asciiLower "/x/sse") "sse" = true) ∧
        cfgTypeLower { url := some "https://h/x/sse" } ≠ "streamable-http" ∧
        cfgTypeLower { url := some "https://h/x/sse" } ≠ "http")) :=
  resolveCandidates_http { url := some "https://h/x/sse" }
    { scheme := "https:", pathname := "/x/sse" } (Or.inr rfl)

/-! ## C3: liveness-ping fallback -/

/-- Environment for the C3 counterexample: every candidate transport connects,
`ping` always throws a `-32601` method-not-found error, and `listTools` always
succeeds. -/
def c3Env : ProbeEnv :=
  { parseUrl := fun _ => .ok { scheme := "https:", pathname := "/mcp" }
    connectC := fun _ _ => .ok ()
    pingC := fun _ _ => .error "-32601 method not found"
    buildStdio := .ok ()
    connectS := fun _ => .ok ()
    pingS := fun _ => .error "-32601 method not found"
    listToolsS := fun _ => .ok ()
    stderrTrimmed := ""
    elapsed := 7 }

/-- A URL descriptor. -/
def c3Cfg : MCPServerConfig := { url := some "https://example.com/mcp" }

/-- **C3, counterexample.**  The claim says that for *every* descriptor whose
ping always throws a method-not-found-class error and whose listTools
succeeds, probe returns `Ok`.  For a URL descriptor this is false: `tryOnce`
(`server.ts` 232-238) has no listTools fallback, so both candidates fail and
the probe returns `Fail` even though `listTools` would have succeeded. -/
theorem checkMcpServer_url_no_fallback_counterexample :
    (checkMcpServer c3Env c3Cfg 10000).isOk = false ∧
    isMethodMissingError "-32601 method not found" = true := by
  decide

/-- **C3, amended.**  The listTools liveness fallback exists only on the
local-process (stdio) path: for every descriptor taking that path (no truthy
`url`, truthy `command`) whose transport builds and connects, if `ping` throws
a method-not-found-class error and `listTools` succeeds within the same
liveness budget, the probe returns `Ok`. -/
theorem checkMcpServer_stdio_ping_fallback (env : ProbeEnv)
    (cfg : MCPServerConfig) (t : Nat) (m : String)
    (hurl : optTruthy cfg.url = false)
    (hcmd : optTruthy cfg.command = true)
    (hbuild : env.buildStdio = .ok ())
    (hconn : env.connectS t = .ok ())
    (hping : env.pingS t = .error m)
    (hmm : isMethodMissingError m = true)
    (hlist : env.listToolsS t = .ok ()) :
    checkMcpServer env cfg t = .ok env.elapsed := by
  simp [checkMcpServer, checkBody, hurl, hcmd, hbuild, hconn, hping, hmm, hlist]

/-- Concrete stdio environment for the C3 witness. -/
def c3wEnv : ProbeEnv :=
  { parseUrl := fun _ => .error "unused"
    connectC := fun _ _ => .error "unused"
    pingC := fun _ _ => .error "unused"
    buildStdio := .ok ()
    connectS := fun _ => .ok ()
    pingS := fun _ => .error "ping Not Implemented"
    listToolsS := fun _ => .ok ()
    stderrTrimmed := ""
    elapsed := 5 }

/-- Concrete stdio descriptor for the C3 witness. -/
def c3wCfg : MCPServerConfig := { command := some "node" }

/-- Witness for `checkMcpServer_stdio_ping_fallback`. -/
theorem checkMcpServer_stdio_ping_fallback_witness :
    checkMcpServer c3wEnv c3wCfg 2000 = .ok 5 :=
  checkMcpServer_stdio_ping_fallback c3wEnv c3wCfg 2000 "ping Not Implemented"
    rfl rfl rfl rfl rfl (by decide) rfl

/-! ## C7: aggregated failure message -/

theorem strAppend_ne_empty (s tl : String) (h : s ≠ "") : s ++ tl ≠ "" := by
  intro hc
  apply h
  have hdata := congrArg String.data hc
  rw [String.data_append] at hdata
  have hs : s.data = [] := (List.append_eq_nil.mp hdata).1
  cases s
  simp_all

/-- **C7.**  If both HTTP candidates of a URL probe fail — the first always
with message `a`, the second always with message `b` — in the default
streamable-first order, the probe returns `Fail` whose error is exactly the
candidate-prefixed messages joined by `" | "` in attempt order. -/
theorem checkMcpServer_aggregated_error (env : ProbeEnv)
    (cfg : MCPServerConfig) (u : String) (url : Url) (t : Nat) (a b : String)
    (hurl : cfg.url = some u) (hu : u ≠ "")
    (hparse : env.parseUrl u = .ok url)
    (hcand : resolveCandidates cfg url = ["streamable-http", "legacy-sse"])
    (hA : ∀ ms, tryOnce env "streamable-http" ms = .error a)
    (hB : ∀ ms, tryOnce env "legacy-sse" ms = .error b) :
    checkMcpServer env cfg t =
      .fail env.elapsed ("streamable-http: " ++ a ++ " | " ++ ("legacy-sse: " ++ b)) := by
  have htr : optTruthy cfg.url = true := by
    rw [hurl]; simp [optTruthy, hu]
  have hget : cfg.url.getD "" = u := by rw [hurl]; rfl
  have hne : ("streamable-http" : String) ++ ": " ++ a ++ " | " ++
      ("legacy-sse" ++ ": " ++ b) ≠ "" :=
    strAppend_ne_empty _ _ (strAppend_ne_empty _ _ (strAppend_ne_empty _ _ (by decide)))
  simp only [checkMcpServer, checkBody, htr, if_true, hget, hparse, hcand,
    attemptBudgets, List.length_cons, List.length_nil, List.zip_cons_cons,
    List.zip_nil_right]
  norm_num
  simp only [probeUrlLoop, hA, hB, List.nil_append, List.cons_append,
    joinPipe, joinSep]
  rw [beq_eq_false_iff_ne.mpr hne]
  simp [String.ext_iff, String.data_append, List.append_assoc]

/-- Concrete environment for the C7 witness: both HTTP candidates fail at
connect, with messages "A" and "B" respectively. -/
def c7wEnv : ProbeEnv :=
  { parseUrl := fun _ => .ok { scheme := "https:", pathname := "/api" }
    connectC := fun name _ =>
      .error (if name == "streamable-http" then "A" else "B")
    pingC := fun _ _ => .ok ()
    buildStdio := .ok ()
    connectS := fun _ => .ok ()
    pingS := fun _ => .ok ()
    listToolsS := fun _ => .ok ()
    stderrTrimmed := ""
    elapsed := 9 }

/-- Concrete URL descriptor for the C7 witness. -/
def c7wCfg : MCPServerConfig := { url := some "https://example.com/api" }

/-- Witness for `checkMcpServer_aggregated_error`. -/
theorem checkMcpServer_aggregated_error_witness :
    checkMcpServer c7wEnv c7wCfg 2000 =
      .fail 9 ("streamable-http: " ++ "A" ++ " | " ++ ("legacy-sse: " ++ "B")) :=
  checkMcpServer_aggregated_error c7wEnv c7wCfg "https://example.com/api"
    { scheme := "https:", pathname := "/api" } 2000 "A" "B"
    rfl (by decide) rfl (by decide) (fun _ => rfl) (fun _ => rfl)

/-! ## C5: independent capability sub-probes -/

/-- **C5.**  The three list calls are attempted independently.  First
conjunct: when `listResources` always throws a method-not-found-class error
while `listTools` and `listPrompts` succeed, `discover` returns `Ok` with
`supported = {tools: true, resources: false, prompts: true}` and an empty
resources list.  Second conjunct: when `listResources` fails with any other
error (with `listTools` succeeding), the entire discovery attempt fails with
that error. -/
theorem discover_partial_support :
    (∀ (calls : DiscoverCalls) (ms : Nat) (raw : List RawTool) (m : String)
        (ps : List String),
      (∀ b, calls.listTools b = .ok raw) →
      (∀ b, calls.listResources b = .error m) →
      isMethodMissingError m = true →
      (∀ b, calls.listPrompts b = .ok ps) →
      discover calls ms =
        .ok (⟨true, false, true⟩, ⟨normalizeTools raw, [], ps⟩)) ∧
    (∀ (calls : DiscoverCalls) (ms : Nat) (raw : List RawTool) (m : String),
      (∀ b, calls.listTools b = .ok raw) →
      (∀ b, calls.listResources b = .error m) →
      isMethodMissingError m = false →
      discover calls ms = .error m) := by
  constructor
  · intro calls ms raw m ps hT hR hmm hP
    simp [discover, capPhase, hT, hR, hmm, hP, Bind.bind, Except.bind]
  · intro calls ms raw m hT hR hmm
    simp [discover, capPhase, hT, hR, hmm, Bind.bind, Except.bind]

/-- Fake transport for the C5 witness: resources unsupported. -/
def c5wCalls : DiscoverCalls :=
  { listTools := fun _ => .ok [{ name := some "t1" }]
    listResources := fun _ => .error "not implemented"
    listPrompts := fun _ => .ok ["p"] }

/-- Fake transport for the C5 witness, second conjunct: resources failing
with a non-method-missing error. -/
def c5wCallsBad : DiscoverCalls :=
  { listTools := fun _ => .ok []
    listResources := fun _ => .error "boom"
    listPrompts := fun _ => .ok [] }

/-- Witness for `discover_partial_support`. -/
theorem discover_partial_support_witness :
    discover c5wCalls 3000 =
      .ok (⟨true, false, true⟩,
        ⟨normalizeTools [{ name := some "t1" }], [], ["p"]⟩) ∧
    discover c5wCallsBad 3000 = .error "boom" :=
  ⟨discover_partial_support.1 c5wCalls 3000 [{ name := some "t1" }]
      "not implemented" ["p"] (fun _ => rfl) (fun _ => rfl) (by decide)
      (fun _ => rfl),
    discover_partial_support.2 c5wCallsBad 3000 [] "boom"
      (fun _ => rfl) (fun _ => rfl) (by decide)⟩

/-! ## C10: unsupported capabilities have empty lists -/

/-- Inversion for `Except` bind: a successful bind factors through a
successful first step. -/
theorem exceptBind_ok {ε α β : Type} (x : Except ε α) (f : α → Except ε β)
    (v : β) (h : (x >>= f) = .ok v) : ∃ a, x = .ok a ∧ f a = .ok v := by
  cases x with
  | ok a => exact ⟨a, rfl, h⟩
  | error e => exact Except.noConfusion h

/-- A successful `capPhase` with the supported flag `false` left the list at
its initial empty value. -/
theorem capPhase_false {α β : Type} (r : Except String α) (onOk : α → β)
    (e : β) (st : Bool × β) (h : capPhase r onOk e = .ok st)
    (hf : st.1 = false) : st.2 = e := by
  cases r with
  | ok v =>
    simp only [capPhase, Except.ok.injEq] at h
    rw [← h] at hf
    simp at hf
  | error m =>
    unfold capPhase at h
    by_cases hm : isMethodMissingError m = true
    · simp only [hm, if_true, Except.ok.injEq] at h
      rw [← h]
    · simp [hm] at h

/-- An `Ok` result of `discover` marks a capability unsupported only with the
corresponding empty list. -/
theorem discover_ok_inv (calls : DiscoverCalls) (ms : Nat)
    (sup : SupportedFlags) (caps : McpCapabilities)
    (h : discover calls ms = .ok (sup, caps)) :
    (sup.tools = false → caps.tools = []) ∧
    (sup.resources = false → caps.resources = []) ∧
    (sup.prompts = false → caps.prompts = []) := by
  simp only [discover] at h
  obtain ⟨t1, h1, h⟩ := exceptBind_ok _ _ _ h
  obtain ⟨t2, h2, h⟩ := exceptBind_ok _ _ _ h
  obtain ⟨t3, h3, h⟩ := exceptBind_ok _ _ _ h
  simp only [Except.ok.injEq, Prod.mk.injEq] at h
  obtain ⟨hsup, hcaps⟩ := h
  subst hsup hcaps
  exact ⟨fun hf => capPhase_false _ _ _ _ h1 hf,
    fun hf => capPhase_false _ _ _ _ h2 hf,
    fun hf => capPhase_false _ _ _ _ h3 hf⟩

/-- An `Ok` of the URL candidate loop comes from some successful candidate
attempt. -/
theorem capUrlLoop_ok_inv (env : CapEnv) :
    ∀ (pairs : List (String × Nat)) (errors : List String) (lat : Nat)
      (sup : SupportedFlags) (caps : McpCapabilities),
      capUrlLoop env pairs errors = .ok lat sup caps →
      ∃ name ms, capTryOnce env name ms = .ok (sup, caps) := by
  intro pairs
  induction pairs with
  | nil =>
    intro errors lat sup caps h
    simp [capUrlLoop] at h
  | cons p rest ih =>
    intro errors lat sup caps h
    obtain ⟨name, ms⟩ := p
    unfold capUrlLoop at h
    cases hT : capTryOnce env name ms with
    | ok sc =>
      rw [hT] at h
      obtain ⟨s, c⟩ := sc
      simp only [McpCapabilitiesResult.ok.injEq] at h
      obtain ⟨_, h2, h3⟩ := h
      exact ⟨name, ms, by rw [hT, h2, h3]⟩
    | error e =>
      rw [hT] at h
      exact ih _ _ _ _ h

/-- An `Ok` of one candidate attempt comes from a successful `discover`. -/
theorem capTryOnce_ok_inv (env : CapEnv) (name : String) (ms : Nat)
    (sup : SupportedFlags) (caps : McpCapabilities)
    (h : capTryOnce env name ms = .ok (sup, caps)) :
    discover (env.callsC name) ((splitTimeoutN ms 2).getD 1 0) = .ok (sup, caps) := by
  unfold capTryOnce at h
  obtain ⟨_, _, h⟩ := exceptBind_ok _ _ _ h
  exact h

/-- **C10.**  In every `Ok` capability outcome of the engine, a capability
marked unsupported has an empty capability list. -/
theorem getMcpCapabilities_unsupported_empty (env : CapEnv)
    (cfg : MCPServerConfig) (t lat : Nat) (sup : SupportedFlags)
    (caps : McpCapabilities)
    (h : getMcpCapabilities env cfg t = .ok lat sup caps) :
    (sup.tools = false → caps.tools = []) ∧
    (sup.resources = false → caps.resources = []) ∧
    (sup.prompts = false → caps.prompts = []) := by
  have hdisc : ∃ calls ms, discover calls ms = .ok (sup, caps) := by
    unfold getMcpCapabilities at h
    cases hb : capBody env cfg t with
    | error p =>
      rw [hb] at h
      obtain ⟨msg, attached⟩ := p
      simp at h
    | ok r =>
      rw [hb] at h
      subst h
      unfold capBody at hb
      by_cases hu : optTruthy cfg.url = true
      · rw [hu] at hb
        simp only [if_true] at hb
        cases hp : env.parseUrl (cfg.url.getD "") with
        | error e => rw [hp] at hb; exact Except.noConfusion hb
        | ok url =>
          rw [hp] at hb
          simp only [Except.ok.injEq] at hb
          obtain ⟨name, ms, hT⟩ := capUrlLoop_ok_inv env _ _ _ _ _ hb
          exact ⟨env.callsC name, (splitTimeoutN ms 2).getD 1 0,
            capTryOnce_ok_inv env name ms sup caps hT⟩
      · rw [Bool.not_eq_true] at hu
        rw [hu] at hb
        simp only [Bool.false_eq_true, if_false] at hb
        by_cases hc : optTruthy cfg.command = true
        · rw [hc] at hb
          simp only [Bool.not_true, Bool.false_eq_true, if_false] at hb
          cases hbs : env.buildStdio with
          | error e => rw [hbs] at hb; exact Except.noConfusion hb
          | ok u =>
            rw [hbs] at hb
            cases hcs : env.connectS ((splitTimeoutN t 2).getD 0 0) with
            | error e => rw [hcs] at hb; exact Except.noConfusion hb
            | ok u2 =>
              rw [hcs] at hb
              cases hd : discover env.callsS ((splitTimeoutN t 2).getD 1 0) with
              | error e => rw [hd] at hb; exact Except.noConfusion hb
              | ok sc =>
                rw [hd] at hb
                obtain ⟨s, c⟩ := sc
                simp only [Except.ok.injEq, McpCapabilitiesResult.ok.injEq] at hb
                obtain ⟨_, h2, h3⟩ := hb
                exact ⟨env.callsS, (splitTimeoutN t 2).getD 1 0, by rw [hd, h2, h3]⟩
        · rw [Bool.not_eq_true] at hc
          rw [hc] at hb
          simp at hb
  obtain ⟨calls, ms, hd⟩ := hdisc
  exact discover_ok_inv calls ms sup caps hd

/-- Concrete stdio environment for the C10 witness: resources unsupported. -/
def c10wEnv : CapEnv :=
  { parseUrl := fun _ => .error "unused"
    connectC := fun _ _ => .error "unused"
    callsC := fun _ =>
      { listTools := fun _ => .error "unused"
        listResources := fun _ => .error "unused"
        listPrompts := fun _ => .error "unused" }
    buildStdio := .ok ()
    connectS := fun _ => .ok ()
    callsS :=
      { listTools := fun _ => .ok []
        listResources := fun _ => .error "not implemented"
        listPrompts := fun _ => .ok [] }
    stderrTrimmed := ""
    elapsed := 3 }

/-- Concrete stdio descriptor for the C10 witness. -/
def c10wCfg : MCPServerConfig := { command := some "node" }

/-- Witness for `getMcpCapabilities_unsupported_empty`. -/
theorem getMcpCapabilities_unsupported_empty_witness :
    ((⟨true, false, true⟩ : SupportedFlags).tools = false →
      (⟨[], [], []⟩ : McpCapabilities).tools = []) ∧
    ((⟨true, false, true⟩ : SupportedFlags).resources = false →
      (⟨[], [], []⟩ : McpCapabilities).resources = []) ∧
    ((⟨true, false, true⟩ : SupportedFlags).prompts = false →
      (⟨[], [], []⟩ : McpCapabilities).prompts = []) :=
  getMcpCapabilities_unsupported_empty c10wEnv c10wCfg 2000 3
    ⟨true, false, true⟩ ⟨[], [], []⟩ (by decide)

/-! ## Batch scheduler lemmas (C2, C8, C9) -/

/-- A never-throwing engine, as the real `checkMcpServer` /
`getMcpCapabilities` are (their outer catch makes them total). -/
def pureEngine (f : MCPServerConfig → Nat → McpCheckResult) :
    MCPServerConfig → Nat → Except String McpCheckResult :=
  fun cfg tm => .ok (f cfg tm)

/-- The outcome the batch records for one id: the synthetic not-found failure
for an id absent from the descriptor map, the engine result otherwise. -/
def batchOutcome (f : MCPServerConfig → Nat → McpCheckResult)
    (servers : List (String × MCPServerConfig)) (t : Nat) (id : String) :
    McpCheckResult :=
  match alistGet servers id with
  | none => .fail 0 "MCP not found"
  | some cfg => f cfg t

theorem alistGet_put_self {α : Type} (rs : List (String × α)) (id : String)
    (v : α) : alistGet (alistPut rs id v) id = some v := by
  induction rs with
  | nil => simp [alistPut, alistGet]
  | cons p rest ih =>
    obtain ⟨k, w⟩ := p
    by_cases hk : k == id
    · simp [alistPut, alistGet, hk]
    · simp only [alistPut, alistGet, hk, Bool.false_eq_true, if_false]
      exact ih

theorem alistGet_put_other {α : Type} (rs : List (String × α)) (id k : String)
    (v : α) (hne : k ≠ id) :
    alistGet (alistPut rs id v) k = alistGet rs k := by
  have hik : (id == k) = false := beq_eq_false_iff_ne.mpr (Ne.symm hne)
  induction rs with
  | nil => simp [alistPut, alistGet, hik]
  | cons p rest ih =>
    obtain ⟨k', w⟩ := p
    by_cases hk : k' = id
    · subst hk
      simp [alistPut, alistGet, hik]
    · have hk' : (k' == id) = false := beq_eq_false_iff_ne.mpr hk
      by_cases hk2 : k' = k
      · subst hk2
        simp [alistPut, alistGet, hk']
      · have h2 : (k' == k) = false := beq_eq_false_iff_ne.mpr hk2
        simp [alistPut, alistGet, hk', h2, ih]

theorem alistCountKey_put_self {α : Type} (rs : List (String × α))
    (id : String) (v : α) :
    alistCountKey (alistPut rs id v) id = max 1 (alistCountKey rs id) := by
  induction rs with
  | nil => simp [alistPut, alistCountKey]
  | cons p rest ih =>
    obtain ⟨k, w⟩ := p
    by_cases hk : k = id
    · subst hk
      simp [alistPut, alistCountKey]
    · have hk' : (k == id) = false := beq_eq_false_iff_ne.mpr hk
      simp [alistPut, alistCountKey, hk', ih]

theorem alistCountKey_put_other {α : Type} (rs : List (String × α))
    (id k : String) (v : α) (hne : k ≠ id) :
    alistCountKey (alistPut rs id v) k = alistCountKey rs k := by
  have hik : (id == k) = false := beq_eq_false_iff_ne.mpr (Ne.symm hne)
  induction rs with
  | nil => simp [alistPut, alistCountKey, hik]
  | cons p rest ih =>
    obtain ⟨k', w⟩ := p
    by_cases hk : k' = id
    · subst hk
      simp [alistPut, alistCountKey, hik]
    · have hk' : (k' == id) = false := beq_eq_false_iff_ne.mpr hk
      simp [alistPut, alistCountKey, hk', ih]

/-- A worker given a queue without empty-string (falsy) ids and a
never-throwing engine drains the whole queue: it records one outcome per
popped id and invokes the engine exactly for the popped ids that have a
descriptor, in queue order. -/
theorem batchWorker_pure_drain (f : MCPServerConfig → Nat → McpCheckResult)
    (servers : List (String × MCPServerConfig)) (t : Nat) :
    ∀ (q : List String) (rs : List (String × McpCheckResult))
      (cs : List String), ("" : String) ∉ q →
      batchWorker (pureEngine f) servers t q rs cs =
        .ok ([],
          q.foldl (fun acc id => alistPut acc id (batchOutcome f servers t id)) rs,
          cs ++ q.filter (fun id => (alistGet servers id).isSome)) := by
  intro q
  induction q with
  | nil => intro rs cs _; simp [batchWorker]
  | cons id rest ih =>
    intro rs cs h
    have hid : id ≠ "" := fun hc => h (hc ▸ List.mem_cons_self id rest)
    have hidb : (id == "") = false := beq_eq_false_iff_ne.mpr hid
    have hr : ("" : String) ∉ rest := fun hc => h (List.mem_cons_of_mem _ hc)
    simp only [batchWorker, hidb, Bool.false_eq_true, if_false]
    cases hg : alistGet servers id with
    | none =>
      rw [ih _ _ hr]
      simp [batchOutcome, hg]
    | some cfg =>
      simp only [hg, pureEngine]
      rw [ih _ _ hr]
      simp [batchOutcome, hg]

/-- Workers given an already-empty queue are no-ops. -/
theorem runWorkers_nil (engine : MCPServerConfig → Nat → Except String McpCheckResult)
    (servers : List (String × MCPServerConfig)) (t : Nat) :
    ∀ (n : Nat) (rs : List (String × McpCheckResult)) (cs : List String),
      runWorkers engine servers t n ([], rs, cs) = .ok ([], rs, cs) := by
  intro n
  induction n with
  | zero => intro rs cs; rfl
  | succ n ih =>
    intro rs cs
    simp [runWorkers, batchWorker, Bind.bind, Except.bind, ih]

/-- Closed form of the batch over a never-throwing engine and a queue without
empty-string ids: worker 1 drains the queue and the remaining workers are
no-ops. -/
theorem runBatchE_pure_drain (f : MCPServerConfig → Nat → McpCheckResult)
    (servers : List (String × MCPServerConfig)) (ids : List String)
    (t c : Nat) (h : ("" : String) ∉ ids) :
    runBatchE (pureEngine f) servers ids t c =
      .ok (ids.foldl (fun acc id => alistPut acc id (batchOutcome f servers t id)) [],
        ids.filter (fun id => (alistGet servers id).isSome)) := by
  unfold runBatchE
  obtain ⟨n, hn⟩ : ∃ n, max 1 c = n + 1 := ⟨max 1 c - 1, by omega⟩
  rw [hn]
  simp only [runWorkers]
  rw [batchWorker_pure_drain f servers t ids [] [] h]
  simp [Bind.bind, Except.bind, runWorkers_nil, pure, Except.pure]

/-- Key count after folding the per-id writes of a drained queue. -/
theorem alistCountKey_foldl_put (g : String → McpCheckResult) :
    ∀ (q : List String) (rs : List (String × McpCheckResult)) (k : String),
      alistCountKey (q.foldl (fun acc id => alistPut acc id (g id)) rs) k =
        if k ∈ q then max 1 (alistCountKey rs k) else alistCountKey rs k := by
  intro q
  induction q with
  | nil => intro rs k; simp
  | cons id rest ih =>
    intro rs k
    rw [List.foldl_cons, ih]
    by_cases hk : k = id
    · subst hk
      by_cases hm : k ∈ rest
      · simp [hm, alistCountKey_put_self]
      · simp [hm, alistCountKey_put_self]
    · rw [alistCountKey_put_other rs id k (g id) hk]
      simp [List.mem_cons, hk]

/-- Folding the per-id writes leaves keys outside the queue untouched. -/
theorem alistGet_foldl_put_not_mem (g : String → McpCheckResult) :
    ∀ (q : List String) (rs : List (String × McpCheckResult)) (k : String),
      k ∉ q →
      alistGet (q.foldl (fun acc id => alistPut acc id (g id)) rs) k =
        alistGet rs k := by
  intro q
  induction q with
  | nil => intro rs k _; rfl
  | cons id rest ih =>
    intro rs k hk
    rw [List.foldl_cons, ih _ _ (fun hc => hk (List.mem_cons_of_mem _ hc))]
    exact alistGet_put_other rs id k (g id)
      (fun hc => hk (hc ▸ List.mem_cons_self id rest))

/-- After folding the per-id writes, every queued key holds its outcome. -/
theorem alistGet_foldl_put_mem (g : String → McpCheckResult) :
    ∀ (q : List String) (rs : List (String × McpCheckResult)) (k : String),
      k ∈ q →
      alistGet (q.foldl (fun acc id => alistPut acc id (g id)) rs) k =
        some (g k) := by
  intro q
  induction q with
  | nil => intro rs k hk; simp at hk
  | cons id rest ih =>
    intro rs k hk
    rw [List.foldl_cons]
    by_cases hm : k ∈ rest
    · exact ih _ _ hm
    · have hkid : k = id := by
        rcases List.mem_cons.mp hk with h | h
        · exact h
        · exact absurd h hm
      subst hkid
      rw [alistGet_foldl_put_not_mem g rest _ k hm]
      exact alistGet_put_self rs k (g k)

/-! ## C2: batch completeness and non-duplication -/

/-- An engine whose probe always succeeds instantly. -/
def okEngine : MCPServerConfig → Nat → Except String McpCheckResult :=
  fun _ _ => .ok (.ok 1)

/-- **C2, counterexample.**  The claim includes empty-string ids: but a popped
empty-string id is falsy, so `if (!id) return;` terminates the worker without
recording anything.  `runBatch` over `ids = [""]` returns an empty result map
— the requested id `""` has no entry (and with duplicates in `ids` the engine
is invoked once per occurrence, not at most once per distinct id, as the
invocation log of the amended theorem shows). -/
theorem runBatch_empty_id_counterexample :
    runBatchE okEngine [] [""] 1000 1 = .ok ([], []) := by
  rfl

/-- **C2, amended.**  For every descriptor map, per-target timeout, and
concurrency, and every id list containing no empty-string id: the batch
returns (never aborts), every requested id has exactly one entry in the
result map, the engine is invoked exactly once per occurrence of an id that
has a descriptor (in queue order), and hence at most once per distinct id
when the id list is duplicate-free. -/
theorem runBatch_complete_unique (f : MCPServerConfig → Nat → McpCheckResult)
    (servers : List (String × MCPServerConfig)) (ids : List String)
    (t c : Nat) (hno : ("" : String) ∉ ids) :
    ∃ rs cs, runBatchE (pureEngine f) servers ids t c = .ok (rs, cs) ∧
      (∀ id ∈ ids, alistCountKey rs id = 1) ∧
      cs = ids.filter (fun id => (alistGet servers id).isSome) ∧
      (ids.Nodup → ∀ id, cs.count id ≤ 1) := by
  refine ⟨_, _, runBatchE_pure_drain f servers ids t c hno, ?_, rfl, ?_⟩
  · intro id hid
    rw [alistCountKey_foldl_put]
    simp [hid, alistCountKey]
  · intro hnd id
    calc (ids.filter (fun id => (alistGet servers id).isSome)).count id
        ≤ ids.count id := (List.filter_sublist ids).count_le id
      _ ≤ 1 := List.nodup_iff_count_le_one.mp hnd id

/-- Descriptor map for the C2 witness. -/
def c2wServers : List (String × MCPServerConfig) :=
  [("a", { command := some "x" })]

/-- Witness for `runBatch_complete_unique`: two distinct ids, one with a
descriptor, one without, at concurrency 3. -/
theorem runBatch_complete_unique_witness :
    ∃ rs cs,
      runBatchE (pureEngine fun _ _ => .ok 1) c2wServers
          ["a", "b"] 1000 3 = .ok (rs, cs) ∧
      (∀ id ∈ ["a", "b"], alistCountKey rs id = 1) ∧
      cs = (["a", "b"].filter (fun id => (alistGet c2wServers id).isSome)) ∧
      (["a", "b"].Nodup → ∀ id, cs.count id ≤ 1) :=
  runBatch_complete_unique (fun _ _ => .ok 1) c2wServers
    ["a", "b"] 1000 3 (by decide)

/-! ## C8: synthetic not-found entries -/

/-- **C8, counterexample.**  The claim quantifies over *every* requested id
absent from the descriptor map, but a popped empty-string id is falsy and
`if (!id) return;` terminates the worker: over the empty descriptor map with
`ids = ["", "missing"]` and concurrency 1, the lone worker dies on `""` and
the batch returns an empty result map — the absent id `"missing"` gets no
synthetic `Fail{latencyMs: 0, error: "MCP not found"}` entry (and neither
does `""`, itself a requested id absent from the map). -/
theorem runBatch_not_found_counterexample :
    runBatchE (pureEngine fun _ _ => .ok 0) [] ["", "missing"] 1000 1 =
      .ok ([], []) := by
  rfl

/-- **C8, amended.**  Provided no requested id is the empty string, every
requested id absent from the descriptor map gets the synthetic outcome
`Fail{latencyMs: 0, error: "MCP not found"}` in the result map, and the
per-target engine is never invoked for it (it never appears in the
invocation log). -/
theorem runBatch_not_found (f : MCPServerConfig → Nat → McpCheckResult)
    (servers : List (String × MCPServerConfig)) (ids : List String)
    (t c : Nat) (id : String) (hno : ("" : String) ∉ ids) (hid : id ∈ ids)
    (habs : alistGet servers id = none) :
    ∃ rs cs, runBatchE (pureEngine f) servers ids t c = .ok (rs, cs) ∧
      alistGet rs id = some (.fail 0 "MCP not found") ∧ id ∉ cs := by
  refine ⟨_, _, runBatchE_pure_drain f servers ids t c hno, ?_, ?_⟩
  · rw [alistGet_foldl_put_mem _ ids [] id hid]
    simp [batchOutcome, habs]
  · intro hc
    have := (List.mem_filter.mp hc).2
    simp [habs] at this

/-- Witness for `runBatch_not_found`, instantiating the claim's example
`runBatch({}, ["missing-id"], 1000, 2)`. -/
theorem runBatch_not_found_witness :
    ∃ rs cs,
      runBatchE (pureEngine fun _ _ => .ok 0) [] ["missing-id"] 1000 2 =
        .ok (rs, cs) ∧
      alistGet rs "missing-id" = some (.fail 0 "MCP not found") ∧
      "missing-id" ∉ cs :=
  runBatch_not_found (fun _ _ => .ok 0) [] ["missing-id"] 1000 2 "missing-id"
    (by decide) (by decide) rfl

/-! ## C9: no exception past the engine boundary -/

/-- A hypothetical engine that throws (rejects) on every target. -/
def throwEngine : MCPServerConfig → Nat → Except String McpCheckResult :=
  fun _ _ => .error "boom"

/-- Descriptor used by the C9 counterexample. -/
def c9Cfg : MCPServerConfig := { command := some "x" }

/-- **C9, counterexample.**  The worker body of `checkMcpServers` /
`getMcpCapabilitiesBatch` has no try/catch around the engine call: an engine
exception rejects that worker's promise and hence the whole `Promise.all`.
With an engine that throws `"boom"` the batch call aborts with that exception
instead of recording a `Fail` entry for the target. -/
theorem runBatch_engine_throw_aborts :
    runBatchE throwEngine [("a", c9Cfg)] ["a"] 1000 2 = .error "boom" := by
  rfl

/-- A worker over a never-throwing engine always terminates successfully. -/
theorem batchWorker_pure_total (f : MCPServerConfig → Nat → McpCheckResult)
    (servers : List (String × MCPServerConfig)) (t : Nat) :
    ∀ (q : List String) (rs : List (String × McpCheckResult))
      (cs : List String),
      ∃ st, batchWorker (pureEngine f) servers t q rs cs = .ok st := by
  intro q
  induction q with
  | nil => intro rs cs; exact ⟨_, rfl⟩
  | cons id rest ih =>
    intro rs cs
    by_cases hid : (id == "") = true
    · exact ⟨(rest, rs, cs), by simp [batchWorker, hid]⟩
    · simp only [batchWorker, hid, Bool.false_eq_true, if_false]
      cases hg : alistGet servers id with
      | none => exact ih _ _
      | some cfg => exact ih _ _

/-- **C9, amended.**  The engines never throw past their own boundary: a
descriptor with neither truthy `command` nor truthy `url` yields
`Fail "Missing command or url"`; a URL whose parse throws yields a `Fail`
carrying the thrown message; and because the engine is a total function into
outcomes, the batch scheduler — which itself has *no* exception handler
around the worker's engine call — never aborts when run over it. -/
theorem engine_never_throws :
    (∀ (env : ProbeEnv) (cfg : MCPServerConfig) (t : Nat),
      optTruthy cfg.url = false → optTruthy cfg.command = false →
      checkMcpServer env cfg t = .fail env.elapsed "Missing command or url") ∧
    (∀ (env : CapEnv) (cfg : MCPServerConfig) (t : Nat),
      optTruthy cfg.url = false → optTruthy cfg.command = false →
      getMcpCapabilities env cfg t = .fail env.elapsed "Missing command or url") ∧
    (∀ (env : ProbeEnv) (cfg : MCPServerConfig) (t : Nat) (u e : String),
      cfg.url = some u → u ≠ "" → env.parseUrl u = .error e →
      checkMcpServer env cfg t = .fail env.elapsed e) ∧
    (∀ (f : MCPServerConfig → Nat → McpCheckResult)
      (servers : List (String × MCPServerConfig)) (ids : List String)
      (t c : Nat),
      ∃ res, runBatchE (pureEngine f) servers ids t c = .ok res) := by
  refine ⟨?_, ?_, ?_, ?_⟩
  · intro env cfg t hu hc
    simp [checkMcpServer, checkBody, hu, hc]
  · intro env cfg t hu hc
    simp [getMcpCapabilities, capBody, hu, hc]
  · intro env cfg t u e hurl hu hp
    have htr : optTruthy cfg.url = true := by
      rw [hurl]; simp [optTruthy, hu]
    have hget : cfg.url.getD "" = u := by rw [hurl]; rfl
    simp [checkMcpServer, checkBody, htr, hget, hp]
  · intro f servers ids t c
    unfold runBatchE
    obtain ⟨n, hn⟩ : ∃ n, max 1 c = n + 1 := ⟨max 1 c - 1, by omega⟩
    rw [hn]
    have htot : ∀ (n : Nat) (st),
        ∃ out, runWorkers (pureEngine f) servers t n st = .ok out := by
      intro n
      induction n with
      | zero => intro st; exact ⟨st, rfl⟩
      | succ n ih =>
        intro st
        obtain ⟨q, rs, cs⟩ := st
        obtain ⟨st1, hst1⟩ := batchWorker_pure_total f servers t q rs cs
        obtain ⟨out, hout⟩ := ih st1
        refine ⟨out, ?_⟩
        simp [runWorkers, Bind.bind, Except.bind, hst1, hout]
    obtain ⟨⟨q, rs, cs⟩, hout⟩ := htot (n + 1) (ids, [], [])
    exact ⟨(rs, cs), by simp [Bind.bind, Except.bind, hout, pure, Except.pure]⟩

/-- Environment for the C9 witness whose URL parse always throws (models a
malformed URL rejected by `new URL`). -/
def c9wEnv : ProbeEnv :=
  { parseUrl := fun _ => .error "Invalid URL"
    connectC := fun _ _ => .ok ()
    pingC := fun _ _ => .ok ()
    buildStdio := .ok ()
    connectS := fun _ => .ok ()
    pingS := fun _ => .ok ()
    listToolsS := fun _ => .ok ()
    stderrTrimmed := ""
    elapsed := 4 }

/-- Witness for `engine_never_throws` at concrete inputs. -/
theorem engine_never_throws_witness :
    checkMcpServer c9wEnv {} 1000 = .fail 4 "Missing command or url" ∧
    getMcpCapabilities c10wEnv {} 1000 = .fail 3 "Missing command or url" ∧
    checkMcpServer c9wEnv { url := some "::bad::" } 1000 =
      .fail 4 "Invalid URL" ∧
    ∃ res, runBatchE (pureEngine fun _ _ => .ok 2) [] ["a"] 1000 1 = .ok res := by
  refine ⟨?_, ?_, ?_, ?_⟩
  · exact engine_never_throws.1 c9wEnv {} 1000 rfl rfl
  · exact engine_never_throws.2.1 c10wEnv {} 1000 rfl rfl
  · exact engine_never_throws.2.2.1 c9wEnv { url := some "::bad::" } 1000
      "::bad::" "Invalid URL" rfl (by decide) rfl
  · exact engine_never_throws.2.2.2 (fun _ _ => .ok 2) [] ["a"] 1000 1
